import Mathlib

/-!
# Verification of the streaming OHLCV dashboard core (src/app.py)

Shallow embedding of the tick-ingestion / candle-aggregation / indicator
pipeline of `src/app.py`.  Prices, sizes and derived indicator values are
modelled as rationals (`ℚ`); timestamps as natural numbers counting seconds
since the epoch (the pandas timestamps in the source are only ever used for
15-second bucketing and ordering, both of which factor through seconds).
Python exceptions are modelled by `Except String`; the float values `nan`,
`inf` and `-inf` that pandas produces on degenerate arithmetic are modelled
by the `PyFloat` type below.
-/

/-- A stored row of the `market_data` frame (columns declared at
`src/app.py` line 17: time, product_id, price, shares, side). -/
structure Tick where
  time : ℕ
  product_id : String
  price : ℚ
  shares : ℚ
  side : String
deriving DecidableEq, Repr

/-- The constant `MAX_ROWS` from `src/app.py` line 15. -/
def MAX_ROWS : ℕ := 60000

/-- The constant `period` from `src/app.py` line 16. -/
def period : ℕ := 15000

/-- Series `df.tail(n)`: the last `n` rows of a frame (all rows when it holds
fewer than `n`). -/
def seriesTail (n : ℕ) (l : List ℚ) : List ℚ :=
  l.drop (l.length - n)

/-- Lines 54–60 of `src/app.py`: append the new row at the tail, then, when
the length exceeds the capacity, keep only the last `cap` rows
(`market_data.tail(MAX_ROWS)`), parametrised by the capacity `cap`. -/
def appendRow (cap : ℕ) (l : List Tick) (t : Tick) : List Tick :=
  let l' := l ++ [t]
  if l'.length > cap then l'.drop (l'.length - cap) else l'

/-! ## TickBuffer lemmas (claim C2) -/

theorem length_appendRow_le (cap : ℕ) (l : List Tick) (t : Tick) :
    (appendRow cap l t).length ≤ max cap (l.length + 1) := by
  unfold appendRow
  by_cases h : (l ++ [t]).length > cap
  · rw [if_pos h, List.length_drop]
    simp only [List.length_append, List.length_singleton] at *
    omega
  · rw [if_neg h]
    simp only [List.length_append, List.length_singleton] at *
    omega

/-- Folding `appendRow cap` over a fresh buffer keeps exactly the trailing
`cap` ticks of the input, in their original relative order. -/
theorem foldl_appendRow (cap : ℕ) (ts : List Tick) :
    ts.foldl (appendRow cap) [] = ts.drop (ts.length - cap) := by
  induction ts using List.reverseRecOn with
  | nil => simp
  | append_singleton ts t ih =>
    rw [List.foldl_append, List.foldl_cons, List.foldl_nil, ih]
    unfold appendRow
    simp only [List.length_append, List.length_singleton, List.length_drop]
    by_cases hc : ts.length ≤ cap
    · have h0 : ts.length - cap = 0 := by omega
      rw [h0, List.drop_zero]
      by_cases he : ts.length + 1 > cap
      · rw [Nat.sub_zero, if_pos (by omega)]
      · rw [if_neg (by omega)]
        have h1 : ts.length + 1 - cap = 0 := by omega
        rw [h1, List.drop_zero]
    · -- buffer already full: one element is evicted from the head
      push_neg at hc
      rw [if_pos (by omega)]
      have hmin : ts.length - (ts.length - cap) = cap := by omega
      rw [hmin]
      by_cases hz : cap = 0
      · subst hz
        simp
      · have hle : ts.length - cap + 1 ≤ ts.length := by omega
        rw [List.drop_append_of_le_length (by rw [List.length_drop]; omega),
          List.drop_drop, List.drop_append_of_le_length (by omega)]
        congr 2
        omega

/-! ## Ingestion boundary: `on_message` (lines 35–60) -/

/-- The value of a field of the decoded ticker JSON object, as seen by
`data.get(...)` followed by Python truthiness and `float(...)`:

* `missing`  — the key is absent, `data.get` returns `None` (falsy);
* `strEmpty` — the key holds the empty string (falsy in Python);
* `numStr q` — a non-empty string that `float()` parses to the value `q`;
* `badStr`   — a non-empty string that `float()` rejects (raises
  `ValueError`). -/
inductive JsonField where
  | missing
  | strEmpty
  | numStr (q : ℚ)
  | badStr
deriving DecidableEq, Repr

/-- Python truthiness of the field, as tested by `if price and shares:`
on line 46. -/
def JsonField.truthy : JsonField → Bool
  | .missing => false
  | .strEmpty => false
  | .numStr _ => true
  | .badStr => true

/-- Python `float(x)` applied to the field: succeeds only on a string that parses
as a float; on a non-numeric non-empty string it raises `ValueError`, on
`None` a `TypeError`, on the empty string a `ValueError`. -/
def JsonField.toFloat : JsonField → Except String ℚ
  | .missing => .error "TypeError"
  | .strEmpty => .error "ValueError"
  | .numStr q => .ok q
  | .badStr => .error "ValueError"

/-- A decoded websocket message as consumed by `on_message`
(lines 35–45): the `type` field plus the five fields read from it.  The
timestamp is taken already decoded to seconds since the epoch. -/
structure TickerMsg where
  type_ : String
  time : ℕ
  product_id : String
  side : String
  price : JsonField
  last_size : JsonField
deriving DecidableEq, Repr

/-- Lines 35–60 of `src/app.py`: the `on_message` handler.  A non-ticker
message is ignored; a ticker message whose `price` or `last_size` is falsy
(absent or empty) is silently skipped; otherwise `float(price)` and
`float(shares)` are evaluated in the order of the dict literal on
lines 47–53 — either may raise, modelled as `.error` — and on success the
new row is appended and the buffer truncated to `MAX_ROWS`
(`appendRow MAX_ROWS`).  An `.error` result leaves the global frame
unassigned, i.e. the caller's buffer unchanged. -/
def on_message (st : List Tick) (msg : TickerMsg) : Except String (List Tick) :=
  if msg.type_ = "ticker" then
    if msg.price.truthy && msg.last_size.truthy then do
      let p ← msg.price.toFloat
      let s ← msg.last_size.toFloat
      .ok (appendRow MAX_ROWS st ⟨msg.time, msg.product_id, p, s, msg.side⟩)
    else .ok st
  else .ok st

/-! ## Indicator functions (lines 82–100)

Each indicator function receives the data frame and a window length and
uses only the `price` column (`data['price']`), so the frame argument is
embedded as the list of prices in row order.  `Series.tail(period)` is
`seriesTail`.  `calculate_pivot` evaluates `.iloc[-1]` which raises
`IndexError` on an empty window, hence the `Except` codomain; the other
four use only `.max()`/`.min()`, which on an empty window return the float
`nan` without raising — that non-finite outcome is modelled as `none`. -/

/-- Maximum of the non-empty list `p :: ps` (`Series.max`). -/
def maxOf (p : ℚ) (ps : List ℚ) : ℚ := ps.foldl max p

/-- Minimum of the non-empty list `p :: ps` (`Series.min`). -/
def minOf (p : ℚ) (ps : List ℚ) : ℚ := ps.foldl min p

/-- Last element of the non-empty list `p :: ps` (`Series.iloc[-1]`). -/
def lastOf (p : ℚ) (ps : List ℚ) : ℚ := (p :: ps).getLast (List.cons_ne_nil p ps)

/-- Lines 82–84: `(data.price.tail(period).max() + ....min() + ....iloc[-1]) / 3`. -/
def calculate_pivot (price : List ℚ) (period : ℕ) : Except String ℚ :=
  match seriesTail period price with
  | [] => .error "IndexError"
  | p :: ps => .ok ((maxOf p ps + minOf p ps + lastOf p ps) / 3)

/-- Lines 86–88: `(pivot*2) - data.price.tail(period).min()`. -/
def calculate_resistance1 (pivot : ℚ) (price : List ℚ) (period : ℕ) : Option ℚ :=
  match seriesTail period price with
  | [] => none
  | p :: ps => some (pivot * 2 - minOf p ps)

/-- Lines 90–92: `pivot + (tail.max() - tail.min())`. -/
def calculate_resistance2 (pivot : ℚ) (price : List ℚ) (period : ℕ) : Option ℚ :=
  match seriesTail period price with
  | [] => none
  | p :: ps => some (pivot + (maxOf p ps - minOf p ps))

/-- Lines 94–96: `(pivot*2) - tail.max()`. -/
def calculate_support1 (pivot : ℚ) (price : List ℚ) (period : ℕ) : Option ℚ :=
  match seriesTail period price with
  | [] => none
  | p :: ps => some (pivot * 2 - maxOf p ps)

/-- Lines 98–100: `pivot - (tail.max() - tail.min())`. -/
def calculate_support2 (pivot : ℚ) (price : List ℚ) (period : ℕ) : Option ℚ :=
  match seriesTail period price with
  | [] => none
  | p :: ps => some (pivot - (maxOf p ps - minOf p ps))

/-! ## Candle aggregation: `resample("15S")` (lines 120–132)

`market_data.set_index("time").resample("15S").agg(...)` groups the rows
by 15-second buckets whose boundaries are aligned to the epoch (a day is a
whole number of 15-second intervals, so pandas day-anchored bucketing and
epoch-anchored bucketing coincide), aggregates each non-empty bucket with
`first`/`max`/`min`/`last`/`sum` over the rows of the bucket in timestamp
order (pandas sorts the index; ties keep arrival order, as mergesort is
stable), and `.dropna()` on line 132 removes the all-NaN rows that empty
buckets produce, so empty buckets yield no candle. -/

/-- Start of the bucket containing second `tsec`, for bucket width `w`
seconds: epoch-aligned flooring. -/
def bucketStart (w tsec : ℕ) : ℕ := tsec / w * w

/-- Timestamp order on rows: the order pandas sorts the index by. -/
def timeLE (a b : Tick) : Prop := a.time ≤ b.time

instance : DecidableRel timeLE := fun a b => Nat.decLe a.time b.time

instance : IsTotal Tick timeLE := ⟨fun a b => Nat.le_total a.time b.time⟩

instance : IsTrans Tick timeLE := ⟨fun _ _ _ h h2 => Nat.le_trans h h2⟩

/-- Sorting the frame rows by timestamp.  Insertion sort is stable, like
the sort pandas uses on the index, so rows with equal timestamps keep
their arrival order. -/
def sortTicks (l : List Tick) : List Tick := List.insertionSort timeLE l

/-- Remove consecutive duplicates (the distinct bucket keys of a
timestamp-sorted row list, in order). -/
def dedupC : List ℕ → List ℕ
  | [] => []
  | [a] => [a]
  | a :: b :: r => if a = b then dedupC (b :: r) else a :: dedupC (b :: r)

/-- The distinct bucket keys of the sorted rows `s`, in increasing order:
the buckets pandas emits a (non-NaN) row for. -/
def bucketKeys (w : ℕ) (s : List Tick) : List ℕ :=
  dedupC (s.map fun t => bucketStart w t.time)

/-- The rows of `s` that fall in the bucket starting at `k`. -/
def bucketTicks (w k : ℕ) (s : List Tick) : List Tick :=
  s.filter fun t => bucketStart w t.time = k

/-- One row of the `ohlc_data` frame after the renaming on line 131. -/
structure Candle where
  time : ℕ
  open_ : ℚ
  high : ℚ
  low : ℚ
  close : ℚ
  volume : ℚ
deriving DecidableEq, Repr

/-- The aggregation dictionary of lines 126–129 applied to one non-empty
bucket, the rows given in timestamp order: `first`/`max`/`min`/`last` over
`price` and `sum` over `shares`.  An empty bucket produces no row
(`dropna`, line 132). -/
def candleOfGroup (w : ℕ) : List Tick → Option Candle
  | [] => none
  | t :: ts => some
      { time := bucketStart w t.time
        open_ := t.price
        high := maxOf t.price (ts.map fun u => u.price)
        low := minOf t.price (ts.map fun u => u.price)
        close := ((t :: ts).getLast (List.cons_ne_nil t ts)).price
        volume := ((t :: ts).map fun u => u.shares).sum }

/-- Lines 120–132: resample the frame into `w`-second OHLCV candles. -/
def resample (w : ℕ) (ticks : List Tick) : List Candle :=
  (bucketKeys w (sortTicks ticks)).filterMap fun k =>
    candleOfGroup w (bucketTicks w k (sortTicks ticks))

/-! ## VWAP columns (lines 144–146) and the pull cycle `plot_graph` -/

/-- An IEEE value as produced by pandas column arithmetic: a finite value
(exact, since every quantity in the claims is compared with a tolerance
that exact rational arithmetic trivially meets), or one of the non-finite
results `nan` / `inf` / `-inf` that division by a zero denominator
yields. -/
inductive PyFloat where
  | fin (q : ℚ)
  | nan
  | inf
  | ninf
deriving DecidableEq, Repr

/-- Pandas element-wise division: a zero denominator produces `nan`
(`0/0`) or a signed infinity (`x/0`), never an exception. -/
def pyDiv (a b : ℚ) : PyFloat :=
  if b = 0 then
    if a = 0 then .nan else if 0 < a then .inf else .ninf
  else .fin (a / b)

/-- Series `.cumsum()` with running accumulator `acc`. -/
def cumsumFrom (acc : ℚ) : List ℚ → List ℚ
  | [] => []
  | x :: xs => (acc + x) :: cumsumFrom (acc + x) xs

/-- Series `.cumsum()` (lines 144–145). -/
def cumsum (l : List ℚ) : List ℚ := cumsumFrom 0 l

/-- Lines 144–146: the `VWAP` column,
`(close * volume).cumsum() / volume.cumsum()` element-wise. -/
def vwapSeries (candles : List Candle) : List PyFloat :=
  List.zipWith pyDiv
    (cumsum (candles.map fun c => c.close * c.volume))
    (cumsum (candles.map fun c => c.volume))

/-- A positional argument at one of the call sites on lines 138–142:
the `market_data` frame (of which only the price column is used by the
callees), a float scalar, or an int (the window length). -/
inductive PyArg where
  | frame (price : List ℚ)
  | scalar (q : ℚ)
  | int (n : ℕ)

/-- Python call of `calculate_pivot(data, period)` (2 required positional
parameters, line 82) with an explicit argument list: any other shape of
argument list raises `TypeError`. -/
def call_calculate_pivot (args : List PyArg) : Except String ℚ :=
  match args with
  | [.frame d, .int n] => calculate_pivot d n
  | _ => .error "TypeError: calculate_pivot missing required positional arguments"

/-- Python call of `calculate_resistance1(pivot, data, period)` (3 required
positional parameters, line 86). -/
def call_calculate_resistance1 (args : List PyArg) : Except String (Option ℚ) :=
  match args with
  | [.scalar piv, .frame d, .int n] => .ok (calculate_resistance1 piv d n)
  | _ => .error "TypeError: calculate_resistance1 missing required positional arguments"

/-- Python call of `calculate_resistance2(pivot, data, period)` (line 90). -/
def call_calculate_resistance2 (args : List PyArg) : Except String (Option ℚ) :=
  match args with
  | [.scalar piv, .frame d, .int n] => .ok (calculate_resistance2 piv d n)
  | _ => .error "TypeError: calculate_resistance2 missing required positional arguments"

/-- Python call of `calculate_support1(pivot, data, period)` (line 94). -/
def call_calculate_support1 (args : List PyArg) : Except String (Option ℚ) :=
  match args with
  | [.scalar piv, .frame d, .int n] => .ok (calculate_support1 piv d n)
  | _ => .error "TypeError: calculate_support1 missing required positional arguments"

/-- Python call of `calculate_support2(pivot, data, period)` (line 98). -/
def call_calculate_support2 (args : List PyArg) : Except String (Option ℚ) :=
  match args with
  | [.scalar piv, .frame d, .int n] => .ok (calculate_support2 piv d n)
  | _ => .error "TypeError: calculate_support2 missing required positional arguments"

/-- Line 165 references the name `ax1`, which is bound nowhere in the
program (the axes object created on line 149 is named `ax`): evaluating it
raises `NameError`. -/
def nameError_ax1 : Except String Unit :=
  .error "NameError: name ax1 is not defined"

/-- The indicator part of a would-be snapshot: the five level values the
code computes on lines 138–142 plus the VWAP column of line 146. -/
structure IndicatorSnapshot where
  pivot : ℚ
  r1 : Option ℚ
  s1 : Option ℚ
  r2 : Option ℚ
  s2 : Option ℚ
  vwap : List PyFloat

/-- Lines 116–181: one pull/plot cycle over the buffer contents.

* Line 119: an empty frame short-circuits the whole body — nothing is
  computed or drawn, no exception (`.ok ([], none)`).
* Lines 120–132: resample into 15-second candles; line 134: an empty
  candle frame also short-circuits.
* Lines 138–142: the five indicator calls, each passing one fewer
  positional argument than the callee requires (`calculate_pivot(market_data)`
  and `f(pivot, market_data)`), embedded through the `call_*` wrappers that
  reproduce Python call arity checking.
* Line 165: the reference to the unbound name `ax1`.

The result is the candle rows together with the indicator values the cycle
would hand to the presenter, or the first exception raised. -/
def plot_graph (market_data : List Tick) : Except String (List Candle × Option IndicatorSnapshot) :=
  if market_data.isEmpty then .ok ([], none)
  else
    let ohlc_data := resample 15 market_data
    if ohlc_data.isEmpty then .ok ([], none)
    else do
      let prices := market_data.map fun t => t.price
      let pivot ← call_calculate_pivot [.frame prices]                    -- line 138
      let r1 ← call_calculate_resistance1 [.scalar pivot, .frame prices]  -- line 139
      let s1 ← call_calculate_support1 [.scalar pivot, .frame prices]     -- line 140
      let r2 ← call_calculate_resistance2 [.scalar pivot, .frame prices]  -- line 141
      let s2 ← call_calculate_support2 [.scalar pivot, .frame prices]     -- line 142
      let vwap := vwapSeries ohlc_data                                    -- lines 144–146
      nameError_ax1                                                       -- line 165
      .ok (ohlc_data, some ⟨pivot, r1, s1, r2, s2, vwap⟩)

/-! ## Helper lemmas: fold-max/min, consecutive dedup, bucket arithmetic -/

theorem maxOf_cons (p q : ℚ) (qs : List ℚ) :
    maxOf p (q :: qs) = maxOf (max p q) qs := rfl

theorem minOf_cons (p q : ℚ) (qs : List ℚ) :
    minOf p (q :: qs) = minOf (min p q) qs := rfl

theorem maxOf_mem (p : ℚ) (ps : List ℚ) : maxOf p ps ∈ p :: ps := by
  induction ps generalizing p with
  | nil => simp [maxOf]
  | cons q qs ih =>
    rw [maxOf_cons]
    rcases List.mem_cons.mp (ih (max p q)) with h | h
    · rcases max_choice p q with hm | hm <;> rw [h, hm]
      · exact List.mem_cons_self _ _
      · exact List.mem_cons_of_mem _ (List.mem_cons_self _ _)
    · exact List.mem_cons_of_mem _ (List.mem_cons_of_mem _ h)

theorem le_maxOf (p : ℚ) (ps : List ℚ) : ∀ x ∈ p :: ps, x ≤ maxOf p ps := by
  induction ps generalizing p with
  | nil =>
    intro x hx
    rw [List.mem_singleton] at hx
    simp [maxOf, hx]
  | cons q qs ih =>
    intro x hx
    rw [maxOf_cons]
    rcases List.mem_cons.mp hx with rfl | hx2
    · exact le_trans (le_max_left x q) (ih (max x q) _ (List.mem_cons_self _ _))
    · rcases List.mem_cons.mp hx2 with rfl | hx3
      · exact le_trans (le_max_right p x) (ih (max p x) _ (List.mem_cons_self _ _))
      · exact ih (max p q) x (List.mem_cons_of_mem _ hx3)

theorem minOf_mem (p : ℚ) (ps : List ℚ) : minOf p ps ∈ p :: ps := by
  induction ps generalizing p with
  | nil => simp [minOf]
  | cons q qs ih =>
    rw [minOf_cons]
    rcases List.mem_cons.mp (ih (min p q)) with h | h
    · rcases min_choice p q with hm | hm <;> rw [h, hm]
      · exact List.mem_cons_self _ _
      · exact List.mem_cons_of_mem _ (List.mem_cons_self _ _)
    · exact List.mem_cons_of_mem _ (List.mem_cons_of_mem _ h)

theorem minOf_le (p : ℚ) (ps : List ℚ) : ∀ x ∈ p :: ps, minOf p ps ≤ x := by
  induction ps generalizing p with
  | nil =>
    intro x hx
    rw [List.mem_singleton] at hx
    simp [minOf, hx]
  | cons q qs ih =>
    intro x hx
    rw [minOf_cons]
    rcases List.mem_cons.mp hx with rfl | hx2
    · exact le_trans (ih (min x q) _ (List.mem_cons_self _ _)) (min_le_left x q)
    · rcases List.mem_cons.mp hx2 with rfl | hx3
      · exact le_trans (ih (min p x) _ (List.mem_cons_self _ _)) (min_le_right p x)
      · exact ih (min p q) x (List.mem_cons_of_mem _ hx3)

theorem lastOf_mem (p : ℚ) (ps : List ℚ) : lastOf p ps ∈ p :: ps :=
  List.getLast_mem _

theorem dedupC_sublist : ∀ l : List ℕ, List.Sublist (dedupC l) l
  | [] => by simp [dedupC]
  | [a] => by simp [dedupC]
  | a :: b :: r => by
    unfold dedupC
    by_cases h : a = b
    · rw [if_pos h]
      exact (dedupC_sublist (b :: r)).cons a
    · rw [if_neg h]
      exact (dedupC_sublist (b :: r)).cons₂ a

theorem mem_dedupC_of_mem : ∀ l : List ℕ, ∀ a ∈ l, a ∈ dedupC l
  | [], a, h => absurd h (List.not_mem_nil a)
  | [b], a, h => by simpa [dedupC] using h
  | b :: c :: r, a, h => by
    unfold dedupC
    by_cases hbc : b = c
    · rw [if_pos hbc]
      rcases List.mem_cons.mp h with rfl | h2
      · exact mem_dedupC_of_mem (c :: r) a (hbc ▸ List.mem_cons_self c r)
      · exact mem_dedupC_of_mem (c :: r) a h2
    · rw [if_neg hbc]
      rcases List.mem_cons.mp h with rfl | h2
      · exact List.mem_cons_self _ _
      · exact List.mem_cons_of_mem _ (mem_dedupC_of_mem (c :: r) a h2)

theorem mem_dedupC (l : List ℕ) (a : ℕ) : a ∈ dedupC l ↔ a ∈ l :=
  ⟨fun h => (dedupC_sublist l).subset h, mem_dedupC_of_mem l a⟩

theorem dedupC_pairwise_lt :
    ∀ l : List ℕ, l.Pairwise (· ≤ ·) → (dedupC l).Pairwise (· < ·)
  | [], _ => by simp [dedupC]
  | [a], _ => by simp [dedupC]
  | a :: b :: r, h => by
    unfold dedupC
    have htail : (b :: r).Pairwise (· ≤ ·) := h.of_cons
    by_cases hab : a = b
    · rw [if_pos hab]
      exact dedupC_pairwise_lt _ htail
    · rw [if_neg hab]
      refine List.Pairwise.cons ?_ (dedupC_pairwise_lt _ htail)
      intro x hx
      have hxm : x ∈ b :: r := (dedupC_sublist _).subset hx
      have hab' : a ≤ b := (List.pairwise_cons.mp h).1 b (List.mem_cons_self _ _)
      rcases List.mem_cons.mp hxm with rfl | hxr
      · exact lt_of_le_of_ne hab' hab
      · exact lt_of_lt_of_le (lt_of_le_of_ne hab' hab)
          ((List.pairwise_cons.mp htail).1 x hxr)

theorem dedupC_eq_nil_iff : ∀ l : List ℕ, dedupC l = [] ↔ l = []
  | [] => by simp [dedupC]
  | [a] => by simp [dedupC]
  | a :: b :: r => by
    unfold dedupC
    by_cases h : a = b
    · rw [if_pos h]
      simp [dedupC_eq_nil_iff (b :: r)]
    · rw [if_neg h]
      simp

theorem bucketStart_mod (w t : ℕ) : bucketStart w t % w = 0 := by
  simp [bucketStart, Nat.mul_mod_left]

theorem bucketStart_le (w t : ℕ) : bucketStart w t ≤ t :=
  Nat.div_mul_le_self t w

theorem lt_bucketStart_add (w t : ℕ) (hw : 0 < w) : t < bucketStart w t + w := by
  have hmod : t % w < w := Nat.mod_lt t hw
  calc t = t / w * w + t % w := (Nat.div_add_mod' t w).symm
    _ < t / w * w + w := Nat.add_lt_add_left hmod _

theorem bucketStart_mono (w : ℕ) {s t : ℕ} (h : s ≤ t) :
    bucketStart w s ≤ bucketStart w t :=
  Nat.mul_le_mul_right w (Nat.div_le_div_right h)

/-! ## Sorting and grouping lemmas -/

theorem sortTicks_perm (l : List Tick) : List.Perm (sortTicks l) l :=
  List.perm_insertionSort timeLE l

theorem sortTicks_sorted (l : List Tick) : List.Sorted timeLE (sortTicks l) :=
  List.sorted_insertionSort timeLE l

theorem mem_sortTicks (l : List Tick) (t : Tick) : t ∈ sortTicks l ↔ t ∈ l :=
  (sortTicks_perm l).mem_iff

theorem mem_bucketTicks (w k : ℕ) (s : List Tick) (t : Tick) :
    t ∈ bucketTicks w k s ↔ t ∈ s ∧ bucketStart w t.time = k := by
  simp [bucketTicks, List.mem_filter]

theorem bucketTicks_sorted (w k : ℕ) (s : List Tick) (h : List.Sorted timeLE s) :
    List.Sorted timeLE (bucketTicks w k s) :=
  List.Pairwise.sublist (List.filter_sublist s) h

theorem mem_bucketKeys (w : ℕ) (s : List Tick) (k : ℕ) :
    k ∈ bucketKeys w s ↔ ∃ t ∈ s, bucketStart w t.time = k := by
  simp [bucketKeys, mem_dedupC, List.mem_map]

theorem bucketKeys_pairwise_lt (w : ℕ) (s : List Tick) (h : List.Sorted timeLE s) :
    (bucketKeys w s).Pairwise (· < ·) := by
  apply dedupC_pairwise_lt
  exact List.Pairwise.map _ (fun a b hab => bucketStart_mono w hab) h

theorem mem_resample (w : ℕ) (ticks : List Tick) (c : Candle) :
    c ∈ resample w ticks ↔ ∃ k ∈ bucketKeys w (sortTicks ticks),
      candleOfGroup w (bucketTicks w k (sortTicks ticks)) = some c := by
  simp [resample, List.mem_filterMap]

theorem candleOfGroup_cons (w : ℕ) (t : Tick) (ts : List Tick) :
    candleOfGroup w (t :: ts) = some
      { time := bucketStart w t.time
        open_ := t.price
        high := maxOf t.price (ts.map fun u => u.price)
        low := minOf t.price (ts.map fun u => u.price)
        close := ((t :: ts).getLast (List.cons_ne_nil t ts)).price
        volume := ((t :: ts).map fun u => u.shares).sum } := rfl

/-- A candle emitted for bucket key `k` carries `k` as its `time`. -/
theorem candleOfGroup_bucketTicks_time {w k : ℕ} {s : List Tick} {c : Candle}
    (heq : candleOfGroup w (bucketTicks w k s) = some c) : c.time = k := by
  rcases hg : bucketTicks w k s with _ | ⟨t0, rest⟩
  · rw [hg] at heq
    simp [candleOfGroup] at heq
  · rw [hg, candleOfGroup_cons] at heq
    have ht0 : t0 ∈ bucketTicks w k s := hg ▸ List.mem_cons_self t0 rest
    have hkey : bucketStart w t0.time = k := ((mem_bucketTicks w k s t0).mp ht0).2
    have := congrArg (fun o => (o.map Candle.time).getD 0) heq
    simpa [hkey] using this.symm

/-- In a timestamp-sorted row list the last row has the maximal
timestamp. -/
theorem sorted_le_getLast :
    ∀ (l : List Tick), List.Sorted timeLE l → ∀ (hne : l ≠ []),
      ∀ u ∈ l, u.time ≤ (l.getLast hne).time
  | [], _, hne, _, _ => absurd rfl hne
  | [t], _, _, u, hu => by
    rw [List.mem_singleton] at hu
    subst hu
    exact Nat.le_refl _
  | t :: t2 :: ts, h, hne, u, hu => by
    rw [List.getLast_cons (List.cons_ne_nil t2 ts)]
    rcases List.mem_cons.mp hu with rfl | hu2
    · have h1 : timeLE u t2 := (List.pairwise_cons.mp h).1 t2 (List.mem_cons_self _ _)
      have h2 := sorted_le_getLast (t2 :: ts) h.of_cons (List.cons_ne_nil t2 ts)
        t2 (List.mem_cons_self _ _)
      exact Nat.le_trans h1 h2
    · exact sorted_le_getLast (t2 :: ts) h.of_cons (List.cons_ne_nil t2 ts) u hu2

/-- Every tick of a non-empty frame contributes to some emitted candle:
the one of its own (epoch-aligned) bucket. -/
theorem resample_covers (w : ℕ) (ticks : List Tick) (t : Tick) (ht : t ∈ ticks) :
    ∃ c ∈ resample w ticks, c.time = bucketStart w t.time := by
  have hts : t ∈ sortTicks ticks := (mem_sortTicks ticks t).mpr ht
  have hk : bucketStart w t.time ∈ bucketKeys w (sortTicks ticks) :=
    (mem_bucketKeys w _ _).mpr ⟨t, hts, rfl⟩
  have htb : t ∈ bucketTicks w (bucketStart w t.time) (sortTicks ticks) :=
    (mem_bucketTicks w _ _ t).mpr ⟨hts, rfl⟩
  rcases hg : bucketTicks w (bucketStart w t.time) (sortTicks ticks) with _ | ⟨t0, rest⟩
  · rw [hg] at htb
    exact absurd htb (List.not_mem_nil t)
  · have heq : ∃ c, candleOfGroup w
        (bucketTicks w (bucketStart w t.time) (sortTicks ticks)) = some c := by
      rw [hg]
      exact ⟨_, candleOfGroup_cons w t0 rest⟩
    rcases heq with ⟨c, hc⟩
    exact ⟨c, (mem_resample w ticks c).mpr ⟨_, hk, hc⟩,
      candleOfGroup_bucketTicks_time hc⟩

theorem resample_ne_nil (w : ℕ) (ticks : List Tick) (h : ticks ≠ []) :
    resample w ticks ≠ [] := by
  rcases ticks with _ | ⟨t, ts⟩
  · exact absurd rfl h
  · rcases resample_covers w (t :: ts) t (List.mem_cons_self t ts) with ⟨c, hc, _⟩
    exact List.ne_nil_of_mem hc

/-- Each emitted candle aggregates exactly the rows of its own bucket. -/
theorem resample_candle_group {w : ℕ} {ticks : List Tick} {c : Candle}
    (hc : c ∈ resample w ticks) :
    candleOfGroup w (bucketTicks w c.time (sortTicks ticks)) = some c := by
  rcases (mem_resample w ticks c).mp hc with ⟨k, _, heq⟩
  rw [candleOfGroup_bucketTicks_time heq]
  exact heq

/-- Candle times are strictly increasing: buckets are emitted in order and
never overlap. -/
theorem resample_pairwise (w : ℕ) (ticks : List Tick) :
    (resample w ticks).Pairwise (fun a b => a.time < b.time) := by
  have hkeys := bucketKeys_pairwise_lt w (sortTicks ticks) (sortTicks_sorted ticks)
  unfold resample
  rw [List.pairwise_filterMap]
  refine hkeys.imp ?_
  intro a b hab x hx y hy
  rw [candleOfGroup_bucketTicks_time (Option.mem_def.mp hx),
    candleOfGroup_bucketTicks_time (Option.mem_def.mp hy)]
  exact hab

/-- Claim C3: resampling with the 15-second bucket width partitions the ticks
into non-overlapping contiguous time buckets aligned to the epoch (not to
the first tick): each candle's `time` is a multiple of 15 and its rows are
exactly the ticks with timestamps in `[time, time + 15)`; within each
non-empty bucket, `open` is the price of the earliest tick, `close` the
price of the latest tick (ties broken by arrival order via the stable
sort), `high`/`low` the maximum/minimum price, `volume` the sum of sizes;
empty buckets are omitted (every candle's bucket is non-empty, every tick
lies in some candle's bucket, and candle times are strictly increasing). -/
theorem C3_resample_partitions_and_aggregates (ticks : List Tick) :
    List.Perm (sortTicks ticks) ticks ∧
    List.Sorted timeLE (sortTicks ticks) ∧
    (∀ c ∈ resample 15 ticks,
      c.time % 15 = 0 ∧
      (∀ u ∈ bucketTicks 15 c.time (sortTicks ticks),
          c.time ≤ u.time ∧ u.time < c.time + 15) ∧
      ∃ t0 rest, bucketTicks 15 c.time (sortTicks ticks) = t0 :: rest ∧
        c.open_ = t0.price ∧
        (∀ u ∈ bucketTicks 15 c.time (sortTicks ticks), t0.time ≤ u.time) ∧
        c.close = ((t0 :: rest).getLast (List.cons_ne_nil t0 rest)).price ∧
        (∀ u ∈ bucketTicks 15 c.time (sortTicks ticks),
            u.time ≤ ((t0 :: rest).getLast (List.cons_ne_nil t0 rest)).time) ∧
        c.high ∈ (t0 :: rest).map (fun u => u.price) ∧
        (∀ u ∈ bucketTicks 15 c.time (sortTicks ticks), u.price ≤ c.high) ∧
        c.low ∈ (t0 :: rest).map (fun u => u.price) ∧
        (∀ u ∈ bucketTicks 15 c.time (sortTicks ticks), c.low ≤ u.price) ∧
        c.volume = ((t0 :: rest).map (fun u => u.shares)).sum) ∧
    (∀ t ∈ ticks, ∃ c ∈ resample 15 ticks, c.time = bucketStart 15 t.time) ∧
    (resample 15 ticks).Pairwise (fun a b => a.time < b.time) := by
  refine ⟨sortTicks_perm ticks, sortTicks_sorted ticks, ?_,
    resample_covers 15 ticks, resample_pairwise 15 ticks⟩
  intro c hc
  have hg := resample_candle_group hc
  rcases hb : bucketTicks 15 c.time (sortTicks ticks) with _ | ⟨t0, rest⟩
  · rw [hb] at hg
    simp [candleOfGroup] at hg
  · rw [hb, candleOfGroup_cons] at hg
    have hrec := Option.some.inj hg
    have hsorted : List.Sorted timeLE (t0 :: rest) := by
      rw [← hb]
      exact bucketTicks_sorted 15 c.time (sortTicks ticks) (sortTicks_sorted ticks)
    have hbound : ∀ u ∈ bucketTicks 15 c.time (sortTicks ticks),
        c.time ≤ u.time ∧ u.time < c.time + 15 := by
      intro u hu
      have hk : bucketStart 15 u.time = c.time :=
        ((mem_bucketTicks 15 c.time (sortTicks ticks) u).mp hu).2
      constructor
      · rw [← hk]
        exact bucketStart_le 15 u.time
      · rw [← hk]
        exact lt_bucketStart_add 15 u.time (by norm_num)
    have ht0min : ∀ u ∈ bucketTicks 15 c.time (sortTicks ticks), t0.time ≤ u.time := by
      intro u hu
      rw [hb] at hu
      rcases List.mem_cons.mp hu with rfl | hu2
      · exact Nat.le_refl _
      · exact (List.pairwise_cons.mp hsorted).1 u hu2
    have hlast : ∀ u ∈ bucketTicks 15 c.time (sortTicks ticks),
        u.time ≤ ((t0 :: rest).getLast (List.cons_ne_nil t0 rest)).time := by
      intro u hu
      rw [hb] at hu
      exact sorted_le_getLast (t0 :: rest) hsorted (List.cons_ne_nil t0 rest) u hu
    have htime : c.time % 15 = 0 := by
      have : c.time = bucketStart 15 t0.time := by rw [← hrec]
      rw [this]
      exact bucketStart_mod 15 t0.time
    rw [hb] at hbound ht0min hlast
    refine ⟨htime, hbound, t0, rest, rfl, ?_, ht0min, ?_, hlast, ?_, ?_, ?_, ?_, ?_⟩
    · rw [← hrec]
    · rw [← hrec]
    · rw [← hrec]
      simpa [List.map_cons] using maxOf_mem t0.price (rest.map fun u => u.price)
    · intro u hu
      have : u.price ∈ t0.price :: rest.map (fun v => v.price) := by
        rcases List.mem_cons.mp hu with rfl | hu2
        · exact List.mem_cons_self _ _
        · exact List.mem_cons_of_mem _ (List.mem_map_of_mem _ hu2)
      have hle := le_maxOf t0.price (rest.map fun v => v.price) u.price this
      rw [← hrec]
      exact hle
    · rw [← hrec]
      simpa [List.map_cons] using minOf_mem t0.price (rest.map fun u => u.price)
    · intro u hu
      have : u.price ∈ t0.price :: rest.map (fun v => v.price) := by
        rcases List.mem_cons.mp hu with rfl | hu2
        · exact List.mem_cons_self _ _
        · exact List.mem_cons_of_mem _ (List.mem_map_of_mem _ hu2)
      have hle := minOf_le t0.price (rest.map fun v => v.price) u.price this
      rw [← hrec]
      exact hle
    · rw [← hrec]

/-- Witness for C3: a concrete two-tick frame (arriving out of time order,
in two different buckets) on which the hypotheses of the claim theorem are
discharged by computation. -/
theorem C3_resample_partitions_and_aggregates_witness :
    ({ time := 0, open_ := 2, high := 2, low := 2, close := 2, volume := 1 } : Candle)
        ∈ resample 15 [⟨20, "ETH-USD", 5, 2, "sell"⟩, ⟨3, "ETH-USD", 2, 1, "buy"⟩] ∧
      ({ time := 0, open_ := 2, high := 2, low := 2, close := 2, volume := 1 } : Candle).time % 15 = 0 := by
  have hres : resample 15 [⟨20, "ETH-USD", 5, 2, "sell"⟩, ⟨3, "ETH-USD", 2, 1, "buy"⟩] =
      [{ time := 0, open_ := 2, high := 2, low := 2, close := 2, volume := 1 },
       { time := 15, open_ := 5, high := 5, low := 5, close := 5, volume := 2 }] := by
    norm_num [resample, bucketKeys, bucketTicks, sortTicks, candleOfGroup, dedupC,
      bucketStart, maxOf, minOf, timeLE, List.insertionSort, List.orderedInsert,
      List.filterMap_cons, List.filter_cons, List.getLast_singleton]
  have hmem : ({ time := 0, open_ := 2, high := 2, low := 2, close := 2, volume := 1 } : Candle)
      ∈ resample 15 [⟨20, "ETH-USD", 5, 2, "sell"⟩, ⟨3, "ETH-USD", 2, 1, "buy"⟩] := by
    rw [hres]
    exact List.mem_cons_self _ _
  exact ⟨hmem,
    ((C3_resample_partitions_and_aggregates
        [⟨20, "ETH-USD", 5, 2, "sell"⟩, ⟨3, "ETH-USD", 2, 1, "buy"⟩]).2.2.1
      { time := 0, open_ := 2, high := 2, low := 2, close := 2, volume := 1 }
      hmem).1⟩

/-- Claim C9: OHLC consistency: every candle produced by resampling has
`high ≥ open`, `high ≥ close`, `open ≥ low` and `close ≥ low`, for every
input tick sequence. -/
theorem C9_ohlc_consistency (ticks : List Tick) (c : Candle)
    (hc : c ∈ resample 15 ticks) :
    c.open_ ≤ c.high ∧ c.close ≤ c.high ∧ c.low ≤ c.open_ ∧ c.low ≤ c.close := by
  have hg := resample_candle_group hc
  rcases hb : bucketTicks 15 c.time (sortTicks ticks) with _ | ⟨t0, rest⟩
  · rw [hb] at hg
    simp [candleOfGroup] at hg
  · rw [hb, candleOfGroup_cons] at hg
    have hrec := Option.some.inj hg
    have hlastm : ((t0 :: rest).getLast (List.cons_ne_nil t0 rest)).price ∈
        t0.price :: rest.map (fun v => v.price) := by
      rcases List.mem_cons.mp (List.getLast_mem (List.cons_ne_nil t0 rest)) with h | h
      · rw [h]
        exact List.mem_cons_self _ _
      · exact List.mem_cons_of_mem _ (List.mem_map_of_mem _ h)
    refine ⟨?_, ?_, ?_, ?_⟩ <;> rw [← hrec]
    · exact le_maxOf t0.price (rest.map fun v => v.price) t0.price
        (List.mem_cons_self _ _)
    · exact le_maxOf t0.price (rest.map fun v => v.price) _ hlastm
    · exact minOf_le t0.price (rest.map fun v => v.price) t0.price
        (List.mem_cons_self _ _)
    · exact minOf_le t0.price (rest.map fun v => v.price) _ hlastm

/-- Witness for C9: the claim theorem applied to a concrete two-tick frame
whose two ticks share one bucket. -/
theorem C9_ohlc_consistency_witness :
    ({ time := 0, open_ := 2, high := 5, low := 2, close := 5, volume := 3 } : Candle)
        ∈ resample 15 [⟨3, "ETH-USD", 2, 1, "buy"⟩, ⟨9, "ETH-USD", 5, 2, "sell"⟩] ∧
      ((2 : ℚ) ≤ 5 ∧ (5 : ℚ) ≤ 5 ∧ (2 : ℚ) ≤ 2 ∧ (2 : ℚ) ≤ 5) := by
  have hmem : ({ time := 0, open_ := 2, high := 5, low := 2, close := 5, volume := 3 } : Candle)
      ∈ resample 15 [⟨3, "ETH-USD", 2, 1, "buy"⟩, ⟨9, "ETH-USD", 5, 2, "sell"⟩] := by
    have hres : resample 15 [⟨3, "ETH-USD", 2, 1, "buy"⟩, ⟨9, "ETH-USD", 5, 2, "sell"⟩] =
        [{ time := 0, open_ := 2, high := 5, low := 2, close := 5, volume := 3 }] := by
      norm_num [resample, bucketKeys, bucketTicks, sortTicks, candleOfGroup, dedupC,
        bucketStart, maxOf, minOf, timeLE, List.insertionSort, List.orderedInsert,
        List.filterMap_cons, List.filter_cons, List.getLast_singleton]
    rw [hres]
    exact List.mem_cons_self _ _
  have h := C9_ohlc_consistency [⟨3, "ETH-USD", 2, 1, "buy"⟩, ⟨9, "ETH-USD", 5, 2, "sell"⟩]
    { time := 0, open_ := 2, high := 5, low := 2, close := 5, volume := 3 } hmem
  exact ⟨hmem, h⟩

/-- Claim C2: the tick buffer never exceeds its capacity after any append;
eviction is FIFO: after any sequence of appends the buffer holds exactly
the trailing `cap` ticks of the input in their original relative order
(so the earliest-inserted ticks are the ones dropped).  In particular
appending 20000 ticks one by one with capacity 15000 leaves exactly the
last 15000, and the source capacity `MAX_ROWS` is 60000. -/
theorem C2_buffer_bounded_fifo :
    (∀ (cap : ℕ) (ts : List Tick) (n : ℕ),
        ((ts.take n).foldl (appendRow cap) []).length ≤ cap) ∧
    (∀ (cap : ℕ) (ts : List Tick),
        ts.foldl (appendRow cap) [] = ts.drop (ts.length - cap)) ∧
    (∀ ts : List Tick, ts.length = 20000 →
        ts.foldl (appendRow 15000) [] = ts.drop 5000) ∧
    MAX_ROWS = 60000 := by
  refine ⟨?_, foldl_appendRow, ?_, rfl⟩
  · intro cap ts n
    rw [foldl_appendRow, List.length_drop]
    omega
  · intro ts hlen
    rw [foldl_appendRow, hlen]

/-- Witness for C2: the 20000-tick scenario instantiated with an explicit
tick sequence. -/
theorem C2_buffer_bounded_fifo_witness :
    ((List.range 20000).map fun i => (⟨i, "ETH-USD", 1, 1, "buy"⟩ : Tick)).length = 20000 ∧
    ((List.range 20000).map fun i => (⟨i, "ETH-USD", 1, 1, "buy"⟩ : Tick)).foldl
        (appendRow 15000) [] =
      ((List.range 20000).map fun i => (⟨i, "ETH-USD", 1, 1, "buy"⟩ : Tick)).drop 5000 :=
  ⟨by simp, C2_buffer_bounded_fifo.2.2.1 _ (by simp)⟩

/-- Claim C1: for every buffer state with at least one stored tick (so that
resampling yields at least one candle), the pull/plot cycle raises instead
of producing a snapshot: line 138 calls `calculate_pivot` with only the
data argument although its definition requires `(data, period)`, so Python
raises `TypeError` there — before the `ax1` `NameError` on line 165 could
even be reached — and no candle-plus-indicator snapshot is ever produced
from non-empty data. -/
theorem C1_plot_graph_raises_on_nonempty (md : List Tick) (h : md ≠ []) :
    plot_graph md =
      .error "TypeError: calculate_pivot missing required positional arguments" := by
  have h1 : md.isEmpty = false := by
    cases md
    · exact absurd rfl h
    · rfl
  have h2 : (resample 15 md).isEmpty = false := by
    rcases hr : resample 15 md with _ | ⟨c, cs⟩
    · exact absurd hr (resample_ne_nil 15 md h)
    · rfl
  simp only [plot_graph, h1, h2, Bool.false_eq_true, if_false]
  rfl

/-- Witness for C1: a single-tick buffer. -/
theorem C1_plot_graph_raises_on_nonempty_witness :
    ([(⟨0, "ETH-USD", 1, 1, "buy"⟩ : Tick)] ≠ []) ∧
    plot_graph [(⟨0, "ETH-USD", 1, 1, "buy"⟩ : Tick)] =
      .error "TypeError: calculate_pivot missing required positional arguments" :=
  ⟨List.cons_ne_nil _ _,
    C1_plot_graph_raises_on_nonempty [⟨0, "ETH-USD", 1, 1, "buy"⟩] (List.cons_ne_nil _ _)⟩

/-- Claim C5: when the tick buffer is empty — equivalently, when the
trailing indicator window over the buffer is empty, which for the positive
window length `period = 15000` happens exactly when the buffer is empty —
the pull cycle returns the empty candle sequence and an absent indicator
snapshot: no exception is raised and no zero-valued indicator is
fabricated. -/
theorem C5_empty_buffer_absent_snapshot (md : List Tick)
    (h : md = [] ∨ seriesTail period (md.map fun t => t.price) = []) :
    plot_graph md = .ok ([], none) := by
  have hmd : md = [] := by
    rcases h with h | h
    · exact h
    · by_contra hne
      have hlen : (seriesTail period (md.map fun t => t.price)).length = 0 := by
        rw [h]
        rfl
      rw [seriesTail, List.length_drop, List.length_map] at hlen
      have hnz : md.length ≠ 0 := fun h0 => hne (List.eq_nil_of_length_eq_zero h0)
      unfold period at hlen
      omega
  subst hmd
  rfl

/-- Witness for C5: the empty buffer. -/
theorem C5_empty_buffer_absent_snapshot_witness :
    (([] : List Tick) = [] ∨ seriesTail period (([] : List Tick).map fun t => t.price) = []) ∧
    plot_graph [] = .ok ([], none) :=
  ⟨Or.inl rfl, C5_empty_buffer_absent_snapshot [] (Or.inl rfl)⟩

/-- Claim C4: over every non-empty trailing window the indicator functions
compute exactly the spec formulas — `pivot = (max + min + last)/3`,
`r1 = 2*pivot − min`, `s1 = 2*pivot − max`, `r2 = pivot + (max − min)`,
`s2 = pivot − (max − min)`, with max/min/last taken over the trailing
`period` prices — and on the window `[10, 20, 30]` they produce
`pivot = 70/3 ≈ 23.33`, `r1 = 110/3 ≈ 36.67`, `s1 = 50/3 ≈ 16.67`,
`r2 = 130/3 ≈ 43.33`, `s2 = 10/3 ≈ 3.33`, each within `1/100` of the
quoted decimal. -/
theorem C4_indicator_formulas :
    (∀ (data : List ℚ) (n : ℕ) (p : ℚ) (ps : List ℚ), seriesTail n data = p :: ps →
      ∃ M m L, (M ∈ p :: ps ∧ ∀ x ∈ p :: ps, x ≤ M) ∧
        (m ∈ p :: ps ∧ ∀ x ∈ p :: ps, m ≤ x) ∧
        (p :: ps).getLast? = some L ∧
        calculate_pivot data n = .ok ((M + m + L) / 3) ∧
        (∀ piv : ℚ, calculate_resistance1 piv data n = some (2 * piv - m)) ∧
        (∀ piv : ℚ, calculate_support1 piv data n = some (2 * piv - M)) ∧
        (∀ piv : ℚ, calculate_resistance2 piv data n = some (piv + (M - m))) ∧
        (∀ piv : ℚ, calculate_support2 piv data n = some (piv - (M - m)))) ∧
    (∃ piv, calculate_pivot [10, 20, 30] 3 = .ok piv ∧ |piv - 2333/100| ≤ 1/100 ∧
      (∃ r1, calculate_resistance1 piv [10, 20, 30] 3 = some r1 ∧ |r1 - 3667/100| ≤ 1/100) ∧
      (∃ s1, calculate_support1 piv [10, 20, 30] 3 = some s1 ∧ |s1 - 1667/100| ≤ 1/100) ∧
      (∃ r2, calculate_resistance2 piv [10, 20, 30] 3 = some r2 ∧ |r2 - 4333/100| ≤ 1/100) ∧
      (∃ s2, calculate_support2 piv [10, 20, 30] 3 = some s2 ∧ |s2 - 333/100| ≤ 1/100)) := by
  constructor
  · intro data n p ps hw
    refine ⟨maxOf p ps, minOf p ps, lastOf p ps,
      ⟨maxOf_mem p ps, le_maxOf p ps⟩, ⟨minOf_mem p ps, minOf_le p ps⟩, ?_, ?_, ?_, ?_, ?_, ?_⟩
    · rw [lastOf, List.getLast?_eq_getLast]
    · simp [calculate_pivot, hw]
    · intro piv
      simp [calculate_resistance1, hw]
      ring
    · intro piv
      simp [calculate_support1, hw]
      ring
    · intro piv
      simp [calculate_resistance2, hw]
    · intro piv
      simp [calculate_support2, hw]
  · have hw : seriesTail 3 [(10 : ℚ), 20, 30] = 10 :: [20, 30] := rfl
    refine ⟨70/3, ?_, ?_, ⟨110/3, ?_, ?_⟩, ⟨50/3, ?_, ?_⟩, ⟨130/3, ?_, ?_⟩, ⟨10/3, ?_, ?_⟩⟩
    · norm_num [calculate_pivot, seriesTail, maxOf, minOf, lastOf]
    · rw [abs_le]
      constructor <;> norm_num
    · norm_num [calculate_resistance1, seriesTail, maxOf, minOf]
    · rw [abs_le]
      constructor <;> norm_num
    · norm_num [calculate_support1, seriesTail, maxOf, minOf]
    · rw [abs_le]
      constructor <;> norm_num
    · norm_num [calculate_resistance2, seriesTail, maxOf, minOf]
    · rw [abs_le]
      constructor <;> norm_num
    · norm_num [calculate_support2, seriesTail, maxOf, minOf]
    · rw [abs_le]
      constructor <;> norm_num

/-- Witness for C4: the general formula part instantiated on the concrete
window `[10, 20, 30]`. -/
theorem C4_indicator_formulas_witness :
    seriesTail 3 [(10 : ℚ), 20, 30] = 10 :: [20, 30] ∧
    (∃ M m L, (M ∈ (10 : ℚ) :: [20, 30] ∧ ∀ x ∈ (10 : ℚ) :: [20, 30], x ≤ M) ∧
      (m ∈ (10 : ℚ) :: [20, 30] ∧ ∀ x ∈ (10 : ℚ) :: [20, 30], m ≤ x) ∧
      ((10 : ℚ) :: [20, 30]).getLast? = some L ∧
      calculate_pivot [10, 20, 30] 3 = .ok ((M + m + L) / 3) ∧
      (∀ piv : ℚ, calculate_resistance1 piv [10, 20, 30] 3 = some (2 * piv - m)) ∧
      (∀ piv : ℚ, calculate_support1 piv [10, 20, 30] 3 = some (2 * piv - M)) ∧
      (∀ piv : ℚ, calculate_resistance2 piv [10, 20, 30] 3 = some (piv + (M - m))) ∧
      (∀ piv : ℚ, calculate_support2 piv [10, 20, 30] 3 = some (piv - (M - m)))) :=
  ⟨rfl, C4_indicator_formulas.1 [10, 20, 30] 3 10 [20, 30] rfl⟩

/-- Claim C10: when the trailing window is non-empty and its maximum price
equals its minimum price, `resistance2` and `support2` both collapse to
the pivot value passed in, as an ordinary `some` result (no error). -/
theorem C10_r2_s2_collapse_to_pivot (piv : ℚ) (data : List ℚ) (n : ℕ)
    (p : ℚ) (ps : List ℚ) (hw : seriesTail n data = p :: ps)
    (heq : maxOf p ps = minOf p ps) :
    calculate_resistance2 piv data n = some piv ∧
    calculate_support2 piv data n = some piv := by
  constructor
  · simp [calculate_resistance2, hw, heq]
  · simp [calculate_support2, hw, heq]

/-- Witness for C10: the constant window `[5, 5]`. -/
theorem C10_r2_s2_collapse_to_pivot_witness :
    seriesTail 2 [(5 : ℚ), 5] = 5 :: [5] ∧ maxOf 5 [5] = minOf 5 [5] ∧
    calculate_resistance2 7 [(5 : ℚ), 5] 2 = some 7 ∧
    calculate_support2 7 [(5 : ℚ), 5] 2 = some 7 := by
  have h := C10_r2_s2_collapse_to_pivot 7 [(5 : ℚ), 5] 2 5 [5] rfl (by norm_num [maxOf, minOf])
  exact ⟨rfl, by norm_num [maxOf, minOf], h.1, h.2⟩

/-! ## VWAP: from-scratch formula and incremental refinement (claims C6, C8) -/

/-- The spec's from-scratch VWAP at candle index `i`: cumulative
`close * volume` over candles `0..i` divided by cumulative `volume` over
candles `0..i`. -/
def vwapScratchAt (candles : List Candle) (i : ℕ) : PyFloat :=
  pyDiv (((candles.take (i+1)).map fun c => c.close * c.volume).sum)
        (((candles.take (i+1)).map fun c => c.volume).sum)

/-- The spec's incremental VWAP: two running accumulators, one division
per candle. -/
def vwapIncrFrom (pv v : ℚ) : List Candle → List PyFloat
  | [] => []
  | c :: cs =>
    pyDiv (pv + c.close * c.volume) (v + c.volume) ::
      vwapIncrFrom (pv + c.close * c.volume) (v + c.volume) cs

/-- Incremental VWAP over a candle stream, both accumulators starting
at zero. -/
def vwapIncr (candles : List Candle) : List PyFloat := vwapIncrFrom 0 0 candles

theorem vwap_zip (cs : List Candle) : ∀ (pv v : ℚ),
    List.zipWith pyDiv (cumsumFrom pv (cs.map fun c => c.close * c.volume))
      (cumsumFrom v (cs.map fun c => c.volume)) = vwapIncrFrom pv v cs := by
  induction cs with
  | nil => intro pv v; rfl
  | cons c cs ih =>
    intro pv v
    simp only [List.map_cons, cumsumFrom, List.zipWith_cons_cons, vwapIncrFrom]
    rw [ih]

theorem vwapSeries_eq_vwapIncr (cs : List Candle) : vwapSeries cs = vwapIncr cs :=
  vwap_zip cs 0 0

theorem vwapIncrFrom_getElem :
    ∀ (cs : List Candle) (pv v : ℚ) (i : ℕ), i < cs.length →
      (vwapIncrFrom pv v cs)[i]? =
        some (pyDiv (pv + ((cs.take (i+1)).map fun c => c.close * c.volume).sum)
                    (v + ((cs.take (i+1)).map fun c => c.volume).sum))
  | [], pv, v, i, h => by simp at h
  | c :: cs, pv, v, 0, _ => by
    simp [vwapIncrFrom]
  | c :: cs, pv, v, i+1, h => by
    have ih := vwapIncrFrom_getElem cs (pv + c.close * c.volume) (v + c.volume) i
      (by simpa using h)
    simp only [vwapIncrFrom, List.getElem?_cons_succ, List.take_succ_cons,
      List.map_cons, List.sum_cons]
    rw [ih]
    simp [add_assoc]

theorem vwapSeries_getElem (cs : List Candle) (i : ℕ) (h : i < cs.length) :
    (vwapSeries cs)[i]? = some (vwapScratchAt cs i) := by
  rw [vwapSeries_eq_vwapIncr, vwapIncr, vwapIncrFrom_getElem cs 0 0 i h]
  simp [vwapScratchAt]

/-- Claim C6: the VWAP column equals, at every index `i`, the from-scratch
formula (cumulative `close*volume` over candles `0..i` divided by
cumulative volume over `0..i`), and the incremental two-accumulator
computation produces the identical list — exact rational equality, hence
well within the 1e-8 relative tolerance. -/
theorem C6_vwap_scratch_and_incremental :
    (∀ (candles : List Candle) (i : ℕ), i < candles.length →
        (vwapSeries candles)[i]? = some (vwapScratchAt candles i)) ∧
    (∀ candles : List Candle, vwapSeries candles = vwapIncr candles) :=
  ⟨vwapSeries_getElem, vwapSeries_eq_vwapIncr⟩

/-- Witness for C6: a concrete two-candle series. -/
theorem C6_vwap_scratch_and_incremental_witness :
    (1 : ℕ) < ([{ time := 0, open_ := 2, high := 2, low := 2, close := 2, volume := 1 },
                { time := 15, open_ := 4, high := 4, low := 4, close := 4, volume := 3 }] :
        List Candle).length ∧
    (vwapSeries [{ time := 0, open_ := 2, high := 2, low := 2, close := 2, volume := 1 },
                 { time := 15, open_ := 4, high := 4, low := 4, close := 4, volume := 3 }])[1]? =
      some (vwapScratchAt
        [{ time := 0, open_ := 2, high := 2, low := 2, close := 2, volume := 1 },
         { time := 15, open_ := 4, high := 4, low := 4, close := 4, volume := 3 }] 1) :=
  ⟨by norm_num,
    C6_vwap_scratch_and_incremental.1
      [{ time := 0, open_ := 2, high := 2, low := 2, close := 2, volume := 1 },
       { time := 15, open_ := 4, high := 4, low := 4, close := 4, volume := 3 }] 1
      (by norm_num)⟩

/-- Claim C8 counterexample: on a candle series whose cumulative volume is
zero the code does not report the VWAP as absent: lines 144–146 divide the
cumulative price-volume by the cumulative volume unconditionally, and the
`0/0` entry is the float `nan`, carried in the VWAP column (a `Candle`
literal is `⟨time, open, high, low, close, volume⟩`). -/
theorem C8_counterexample_vwap_is_nan :
    cumsum ([(⟨0, 1, 1, 1, 1, 0⟩ : Candle)].map fun c => c.volume) = [0] ∧
    vwapSeries [(⟨0, 1, 1, 1, 1, 0⟩ : Candle)] = [PyFloat.nan] ∧
    PyFloat.nan ≠ PyFloat.fin 0 := by
  refine ⟨?_, ?_, by simp⟩
  · norm_num [cumsum, cumsumFrom]
  · norm_num [vwapSeries, cumsum, cumsumFrom, pyDiv]

/-- Claim C8 amended: if the cumulative volume over candles `0..i` is
zero, the VWAP entry at index `i` is a non-finite float — `nan` when the
cumulative price-volume is also zero, otherwise a signed infinity — not an
absent value and not a finite zero. -/
theorem C8_zero_volume_vwap_not_finite (candles : List Candle) (i : ℕ)
    (h : i < candles.length)
    (hz : ((candles.take (i+1)).map fun c => c.volume).sum = 0) :
    (vwapSeries candles)[i]? = some PyFloat.nan ∨
    (vwapSeries candles)[i]? = some PyFloat.inf ∨
    (vwapSeries candles)[i]? = some PyFloat.ninf := by
  rw [vwapSeries_getElem candles i h]
  unfold vwapScratchAt
  rw [hz]
  unfold pyDiv
  by_cases h0 : ((candles.take (i+1)).map fun c => c.close * c.volume).sum = 0
  · left
    rw [if_pos rfl, if_pos h0]
  · by_cases hpos : 0 < ((candles.take (i+1)).map fun c => c.close * c.volume).sum
    · right; left
      rw [if_pos rfl, if_neg h0, if_pos hpos]
    · right; right
      rw [if_pos rfl, if_neg h0, if_neg hpos]

/-- Witness for the amended C8: a single zero-volume candle. -/
theorem C8_zero_volume_vwap_not_finite_witness :
    (0 : ℕ) < [(⟨0, 1, 1, 1, 1, 0⟩ : Candle)].length ∧
    (([(⟨0, 1, 1, 1, 1, 0⟩ : Candle)].take 1).map fun c => c.volume).sum = 0 ∧
    ((vwapSeries [(⟨0, 1, 1, 1, 1, 0⟩ : Candle)])[0]? = some PyFloat.nan ∨
      (vwapSeries [(⟨0, 1, 1, 1, 1, 0⟩ : Candle)])[0]? = some PyFloat.inf ∨
      (vwapSeries [(⟨0, 1, 1, 1, 1, 0⟩ : Candle)])[0]? = some PyFloat.ninf) :=
  ⟨by norm_num, by norm_num,
    C8_zero_volume_vwap_not_finite [(⟨0, 1, 1, 1, 1, 0⟩ : Candle)] 0
      (by norm_num) (by norm_num)⟩

/-- Claim C7 counterexample: a ticker message whose price field is a
non-empty non-numeric string passes the truthiness test on line 46, and
`float(price)` on line 50 then raises `ValueError` out of the handler: the
malformed tick is not rejected *silently* (a `TickerMsg` literal is
`⟨type, time, product_id, side, price, last_size⟩`). -/
theorem C7_counterexample_nonnumeric_raises :
    on_message [] ⟨"ticker", 0, "ETH-USD", "buy", JsonField.badStr, JsonField.numStr 1⟩ =
      .error "ValueError" := rfl

/-- Claim C7 amended: a ticker message whose price or size is missing or
empty (falsy) is rejected silently: the handler returns with the buffer
unchanged and no error.  A ticker message whose price or size is a
non-empty non-numeric string instead makes `float()` raise `ValueError`
out of the handler — not a silent rejection — though no tick is stored
either way (the global frame is only reassigned on success). -/
theorem C7_tick_validation (st : List Tick) (msg : TickerMsg)
    (htype : msg.type_ = "ticker") :
    ((msg.price.truthy = false ∨ msg.last_size.truthy = false) →
        on_message st msg = .ok st) ∧
    (((msg.price = .badStr ∧ msg.last_size.truthy = true) ∨
      (msg.price.truthy = true ∧ msg.last_size = .badStr)) →
        on_message st msg = .error "ValueError") := by
  rcases msg with ⟨ty, tm, pid, sd, pr, ls⟩
  simp only at htype
  subst htype
  cases pr <;> cases ls <;>
    simp [on_message, JsonField.truthy, JsonField.toFloat, Bind.bind, Except.bind]

/-- Witness for the amended C7: a message with a missing price is ignored
and the buffer is unchanged. -/
theorem C7_tick_validation_witness :
    (⟨"ticker", 0, "ETH-USD", "buy", JsonField.missing, JsonField.numStr 1⟩ :
        TickerMsg).type_ = "ticker" ∧
    on_message [] ⟨"ticker", 0, "ETH-USD", "buy", JsonField.missing, JsonField.numStr 1⟩ =
      .ok [] :=
  ⟨rfl,
    (C7_tick_validation []
        ⟨"ticker", 0, "ETH-USD", "buy", JsonField.missing, JsonField.numStr 1⟩ rfl).1
      (Or.inl rfl)⟩
